import Mathlib

/-!
Verification development for the `ship` installer generator: the
executable-link planner and the Debian archive patcher of `src/deb.rs`.

The external crates (`ar`, `tar`, `zstd`, `xz2`, `deb`) are collaborators,
so archives are embedded structurally: an outer archive is a list of
members, a compressed payload is a codec-tagged list of tape-archive
entries, and the codecs are modelled as the tagging/untagging of that
structure (decoding with the wrong codec fails, as the real decoder would).
Everything else — the planner loop, the member rewrite, the inner
re-emission, the symlink append, and the control flow of
`DebGenerator::run` — is translated directly from `src/deb.rs`.
-/

namespace Ship

/-- Host-filesystem metadata for one path, as consulted by
`executable_name` (`std::fs::metadata`): whether it is a regular file and
its permission mode bits. -/
structure FileMeta where
  isFile : Bool
  mode : Nat
deriving DecidableEq

instance {ε α : Type} [DecidableEq ε] [DecidableEq α] : DecidableEq (Except ε α) :=
  fun x y =>
    match x, y with
    | .ok a, .ok b => if h : a = b then isTrue (by rw [h]) else isFalse (by simp [h])
    | .ok _, .error _ => isFalse (fun h => Except.noConfusion h)
    | .error _, .ok _ => isFalse (fun h => Except.noConfusion h)
    | .error a, .error b =>
        if h : a = b then isTrue (by rw [h]) else isFalse (by simp [h])

/-- Split a character list at every occurrence of `sep` (the semantics of
Rust's `split('/')` / `String.splitOn "/"`, in a form the kernel
evaluates). -/
def splitChars (sep : Char) : List Char → List (List Char)
  | [] => [[]]
  | c :: rest =>
      let r := splitChars sep rest
      if c = sep then [] :: r
      else
        match r with
        | [] => [[c]]
        | h :: t => (c :: h) :: t

/-- `s` starts with `p` (Rust `starts_with` / `strip_prefix` test). -/
def strStartsWith (s p : String) : Bool :=
  p.data.isPrefixOf s.data

/-- `s` ends with `p` (Rust `ends_with`). -/
def strEndsWith (s p : String) : Bool :=
  p.data.isSuffixOf s.data

/-- Model of Rust `Path::file_name` for the slash-separated path strings
this program uses: the last normal component, ignoring empty components
and `.`; `none` when there is no such component or it is `..`. -/
def fileName (path : String) : Option String :=
  let comps := ((splitChars '/' path.data).map String.mk).filter
    (fun c => c != "" && c != ".")
  match comps.getLast? with
  | none => none
  | some c => if c = ".." then none else some c

/-- `executable_name` (deb.rs:151-162), parameterised by the host
filesystem `fs`: the file name of `path` when it is a regular file with at
least one execute bit (`mode & 0o111 != 0`), else `none`. -/
def executable_name (fs : String → Option FileMeta) (path : String) :
    Option String :=
  match fs path with
  | none => none
  | some md =>
      if !md.isFile || Nat.land md.mode 0o111 == 0 then none
      else fileName path

/-- `file.strip_prefix("./").unwrap_or(file)` (deb.rs:32). -/
def stripDotSlash (s : String) : String :=
  if strStartsWith s "./" then s.drop 2 else s

/-- The `(from, to)` file list built at deb.rs:23-37:
each manifest path is paired with `/opt/<prog-name>/<stripped-path>`. -/
def derivedFiles (progName : String) (paths : List String) :
    List (String × String) :=
  paths.map (fun file => (file, "/opt/" ++ progName ++ "/" ++ stripDotSlash file))

/-- The planner's failure: two distinct targets want one link path
(deb.rs:49-53, "conflicting binaries"). -/
inductive PlanError where
  | conflict (linkPath firstTarget secondTarget : String)
deriving DecidableEq

/-- Model of `HashMap::get` over the association list that stands for
`seen_links`. -/
def lookupSeen : List (String × String) → String → Option String
  | [], _ => none
  | (k, v) :: rest, key => if key = k then some v else lookupSeen rest key

/-- The planner loop of `DebGenerator::run` (deb.rs:43-61): walk the file
list; for each executable source derive `/usr/bin/<name>`; a repeated link
path with the same target is skipped, with a different target it is a
`conflict`; otherwise the pair is recorded in `seen_links` and appended to
`bin_symlinks`. -/
def planSymlinks (fs : String → Option FileMeta) :
    List (String × String) → List (String × String) → List (String × String) →
    Except PlanError (List (String × String))
  | [], _seen, acc => .ok acc
  | (src, dst) :: rest, seen, acc =>
      match executable_name fs src with
      | none => planSymlinks fs rest seen acc
      | some linkName =>
          let linkPath := "/usr/bin/" ++ linkName
          match lookupSeen seen linkPath with
          | some existingTarget =>
              if existingTarget ≠ dst then
                .error (.conflict linkPath existingTarget dst)
              else
                planSymlinks fs rest seen acc
          | none =>
              planSymlinks fs rest ((linkPath, dst) :: seen) (acc ++ [(linkPath, dst)])

/-- `DataCompression` (deb.rs:169-172). -/
inductive DataCompression where
  | xz
  | zstd
deriving DecidableEq

/-- Tape-archive entry kinds relevant to the patcher (`tar::EntryType`). -/
inductive EntryType where
  | file
  | directory
  | symlink
  | hardLink
  | other
deriving DecidableEq

/-- One record of the inner tape archive: the header fields the patcher
reads and writes (path, entry type, mode, link target, and the stored size
field), plus the entry contents. -/
structure TarEntry where
  path : String
  etype : EntryType
  mode : Nat
  linkTarget : Option String
  contents : List Nat
  size : Nat
deriving DecidableEq

/-- Contents of an outer-archive member: either opaque bytes or a
compressed tape archive, tagged with the codec that produced it (the
structural model of the external zstd/xz streams). -/
inductive Blob where
  | bytes (bs : List Nat)
  | compressed (codec : DataCompression) (entries : List TarEntry)
deriving DecidableEq

/-- One member of the outer `ar` container: identifier, mode, contents
(deb.rs:179, the `(Vec<u8>, u32, Vec<u8>)` triple; identifiers are header
text, modelled as strings). -/
structure ArEntry where
  identifier : String
  mode : Nat
  contents : Blob
deriving DecidableEq

/-- The patcher's failures, each carrying what its `io::Error` message
names; `ioError` stands for failures inside the external codec/archive
libraries. -/
inductive PatchError where
  | missingData
  | unsupportedFormat (name : String)
  | pathConflict (path : String)
  | ioError
deriving DecidableEq

/-- The message text the patcher puts in each `io::Error` (deb.rs:196,
225, 272). -/
def PatchError.message : PatchError → String
  | .missingData => "deb package missing data archive"
  | .unsupportedFormat name => "unsupported data archive format: " ++ name
  | .pathConflict p => "data archive already contains path: " ++ p
  | .ioError => "io error"

/-- `ar_identifier_to_name` (deb.rs:302-312): trim trailing spaces, then
strip one trailing `/`. -/
def ar_identifier_to_name (identifier : String) : String :=
  let name := String.mk (((identifier.data).reverse.dropWhile (· = ' ')).reverse)
  if strEndsWith name "/" then name.dropRight 1 else name

/-- The payload-locating predicate of deb.rs:190-195: the member whose
canonical name is `data.tar.zst` or `data.tar.xz`. -/
def is_data_entry (e : ArEntry) : Bool :=
  let name := ar_identifier_to_name e.identifier
  name == "data.tar.zst" || name == "data.tar.xz"

/-- The codec dispatch of deb.rs:218-227: `.zst` → Zstd, else `.xz` → Xz,
else unsupported. -/
def codecOfName (dataName : String) : Option DataCompression :=
  if strEndsWith dataName ".zst" then some .zstd
  else if strEndsWith dataName ".xz" then some .xz
  else none

/-- Decompression of a member's contents with codec `c` (deb.rs:230-237):
succeeds exactly on a blob produced by the same codec. -/
def decompressBlob (c : DataCompression) (b : Blob) :
    Except PatchError (List TarEntry) :=
  match b with
  | .bytes _ => .error .ioError
  | .compressed c' entries =>
      if c' = c then .ok entries else .error .ioError

/-- The re-emission of one payload entry (deb.rs:248-264): path, type and
mode copied; the link target copied only for symlink/hard-link entries;
size recomputed from the contents. -/
def reEmitEntry (e : TarEntry) : TarEntry :=
  { path := e.path
    etype := e.etype
    mode := e.mode
    linkTarget :=
      if e.etype = .symlink ∨ e.etype = .hardLink then e.linkTarget else none
    contents := e.contents
    size := e.contents.length }

/-- The first pass over the decompressed payload (deb.rs:243-265):
collect every entry path into `existing_paths` and re-emit every entry
into the new tape archive. -/
def rewritePass : List TarEntry → (List String × List TarEntry)
  | [] => ([], [])
  | e :: rest =>
      let (paths, out) := rewritePass rest
      (e.path :: paths, reEmitEntry e :: out)

/-- `link.strip_prefix('/').unwrap_or(link)` (deb.rs:268). -/
def stripLeadingSlash (s : String) : String :=
  if strStartsWith s "/" then s.drop 1 else s

/-- The appended symlink record (deb.rs:276-283): symlink type, link
target, mode `0o777`, size `0`, empty contents. -/
def symlinkTarEntry (linkPath target : String) : TarEntry :=
  { path := linkPath
    etype := .symlink
    mode := 0o777
    linkTarget := some target
    contents := []
    size := 0 }

/-- The symlink-append loop (deb.rs:267-284): each link path, with one
leading `/` stripped, is checked against the pre-existing payload paths
(`existing_paths` only — not the symlinks appended so far); a hit is a
`pathConflict`, otherwise a zero-size symlink entry is appended. -/
def appendSymlinks (existing : List String) :
    List (String × String) → Except PatchError (List TarEntry)
  | [] => .ok []
  | (link, target) :: rest =>
      let linkPath := stripLeadingSlash link
      if existing.contains linkPath then
        .error (.pathConflict linkPath)
      else
        match appendSymlinks existing rest with
        | .error e => .error e
        | .ok tail => .ok (symlinkTarEntry linkPath target :: tail)

/-- `rewrite_data_archive` (deb.rs:213-300): pick the codec from the
member name, decompress, re-emit every entry while collecting its path,
append the symlink entries, and re-compress with the same codec. -/
def rewrite_data_archive (dataArchive : Blob) (dataName : String)
    (binSymlinks : List (String × String)) : Except PatchError Blob :=
  match codecOfName dataName with
  | none => .error (.unsupportedFormat dataName)
  | some compression =>
      match decompressBlob compression dataArchive with
      | .error e => .error e
      | .ok oldEntries =>
          let (existingPaths, reEmitted) := rewritePass oldEntries
          match appendSymlinks existingPaths binSymlinks with
          | .error e => .error e
          | .ok linkEntries =>
              .ok (.compressed compression (reEmitted ++ linkEntries))

/-- `rewrite_deb_with_symlinks` (deb.rs:174-211): the first member whose
canonical name is a data archive has its contents rewritten in place;
every other member is re-serialized unchanged; no data member is a
`missingData` error. -/
def rewrite_deb_with_symlinks :
    List ArEntry → List (String × String) → Except PatchError (List ArEntry)
  | [], _ => .error .missingData
  | e :: rest, binSymlinks =>
      if is_data_entry e then
        match rewrite_data_archive e.contents (ar_identifier_to_name e.identifier)
            binSymlinks with
        | .error err => .error err
        | .ok newData => .ok ({ e with contents := newData } :: rest)
      else
        match rewrite_deb_with_symlinks rest binSymlinks with
        | .error err => .error err
        | .ok rest' => .ok (e :: rest')

/-- The guard at deb.rs:111-118: the archive bytes are rewritten only when
`bin_symlinks` is non-empty. -/
def patchStep (debBytes : List ArEntry) (binSymlinks : List (String × String)) :
    Except PatchError (List ArEntry) :=
  if binSymlinks.isEmpty then .ok debBytes
  else rewrite_deb_with_symlinks debBytes binSymlinks

/-- The environment `DebGenerator::run` acts in: the host filesystem, the
directory test of deb.rs:66, and the results of the external fallible
operations it performs, in program order (`DebFile::from_path`,
`add_dir_recursive`, `create_dir_all`, `pkg.build()`, `archive.write`,
`fs::write`); the serialized archive is the structural member list. -/
structure BuildEnv where
  fs : String → Option FileMeta
  isDir : String → Bool
  fromPath : String → String → Except String Unit
  dirAdd : String → Option String
  createDirAll : Except String Unit
  build : Except String Unit
  serialize : Except String (List ArEntry)
  writeOut : Except String Unit

/-- How a failure in the file-adding loop leaves `run`: `ret` is the plain
`return` of deb.rs:73, `exitf` the `process::exit(-1)` inside
`add_dir_recursive`. -/
inductive AddFileError where
  | ret (msg : String)
  | exitf (msg : String)
deriving DecidableEq

/-- The file-adding loop of deb.rs:63-78. -/
def addFiles (env : BuildEnv) : List (String × String) → Except AddFileError Unit
  | [] => .ok ()
  | (src, dst) :: rest =>
      if env.isDir src then
        match env.dirAdd src with
        | some msg => .error (.exitf msg)
        | none => addFiles env rest
      else
        match env.fromPath src dst with
        | .error err => .error (.ret ("error: failed to generate .deb! " ++ err))
        | .ok _ => addFiles env rest

/-- How one invocation of `DebGenerator::run` ends: the patched archive is
written out, or the process is terminated via `process::exit(-1)` after a
diagnostic, or `run` returns early after a diagnostic (leaving the
process's exit status untouched). -/
inductive RunOutcome where
  | wrote (archive : List ArEntry)
  | exitFailure (msg : String)
  | returned (msg : String)
deriving DecidableEq

/-- Whether the outcome is a `process::exit(-1)` termination. -/
def RunOutcome.isExitFailure : RunOutcome → Bool
  | .exitFailure _ => true
  | _ => false

/-- Whether the outcome wrote an archive file. -/
def RunOutcome.isWrote : RunOutcome → Bool
  | .wrote _ => true
  | _ => false

/-- The diagnostic of deb.rs:49-52. -/
def conflictMessage (linkPath firstTarget secondTarget : String) : String :=
  "error: conflicting binaries for " ++ linkPath ++ ": " ++ firstTarget
    ++ " and " ++ secondTarget

/-- `DebGenerator::run` (deb.rs:22-127): derive the file list, plan the
symlinks (a conflict prints its diagnostic and returns), add the files
(a `DebFile::from_path` failure prints and returns), then create the
output directory, build and serialize the package, patch in the symlinks
when any were planned, and write the result — each later failure printing
its diagnostic and exiting the process. -/
def run (env : BuildEnv) (progName : String) (paths : List String) : RunOutcome :=
  let files := derivedFiles progName paths
  match planSymlinks env.fs files [] [] with
  | .error (.conflict lp t1 t2) => .returned (conflictMessage lp t1 t2)
  | .ok binSymlinks =>
      match addFiles env files with
      | .error (.ret msg) => .returned msg
      | .error (.exitf msg) => .exitFailure msg
      | .ok _ =>
          match env.createDirAll with
          | .error err =>
              .exitFailure ("error: failed to create output directory: " ++ err)
          | .ok _ =>
              match env.build with
              | .error err =>
                  .exitFailure ("error: failed to build .deb package: " ++ err)
              | .ok _ =>
                  match env.serialize with
                  | .error err =>
                      .exitFailure ("error: failed to serialize .deb package: " ++ err)
                  | .ok debBytes =>
                      match patchStep debBytes binSymlinks with
                      | .error err =>
                          .exitFailure
                            ("error: failed to add symlinks to .deb data archive: "
                              ++ err.message)
                      | .ok finalBytes =>
                          match env.writeOut with
                          | .error err =>
                              .exitFailure ("error: failed to write .deb package: " ++ err)
                          | .ok _ => .wrote finalBytes

/-- The `(link_path, installed_target)` pairs the planner derives, in file
order, one per executable file entry: the reference stream the planner
folds over. -/
def execPairs (fs : String → Option FileMeta) (files : List (String × String)) :
    List (String × String) :=
  files.filterMap
    (fun pr => (executable_name fs pr.1).map (fun n => ("/usr/bin/" ++ n, pr.2)))

/-- First-occurrence deduplication by key, keeping the first value seen
for each key and first-seen order (specification-side description of the
planner's output). -/
def firstSeenKeys : List (String × String) → List String → List (String × String)
  | [], _ => []
  | (k, v) :: rest, seenKeys =>
      if k ∈ seenKeys then firstSeenKeys rest seenKeys
      else (k, v) :: firstSeenKeys rest (k :: seenKeys)

/-- First-occurrence deduplication by key, starting from no seen keys. -/
def firstSeen (l : List (String × String)) : List (String × String) :=
  firstSeenKeys l []

/-- Pairwise consistency of derived `(link_path, target)` pairs: any two
pairs with the same link path agree on the target (the planner's
no-conflict precondition). -/
def PairwiseConsistent (l : List (String × String)) : Prop :=
  ∀ p ∈ l, ∀ q ∈ l, p.1 = q.1 → p.2 = q.2

/-- Consistency of derived pairs with an already-populated `seen_links`
map: a pair whose link path is in the map carries the map's target. -/
def SeenConsistent (l : List (String × String))
    (seen : List (String × String)) : Prop :=
  ∀ p ∈ l, ∀ t, lookupSeen seen p.1 = some t → p.2 = t

/-- The spec scenario's host filesystem: `./build/app` a regular
executable file, `./build/readme.txt` a regular non-executable file. -/
def fsScenario : String → Option FileMeta := fun p =>
  if p = "./build/app" then some ⟨true, 0o755⟩
  else if p = "./build/readme.txt" then some ⟨true, 0o644⟩
  else none

/-- The spec scenario's manifest file list. -/
def pathsScenario : List String :=
  ["./build/app", "./build/app", "./build/readme.txt"]

/-- A host filesystem holding two distinct executables both named `app`:
`./a/app` and `./b/app`. -/
def fsTwoApps : String → Option FileMeta := fun p =>
  if p = "./a/app" then some ⟨true, 0o755⟩
  else if p = "./b/app" then some ⟨true, 0o755⟩
  else none

/-- A build environment over `fsTwoApps` in which every external
operation succeeds. -/
def envTwoApps : BuildEnv :=
  { fs := fsTwoApps
    isDir := fun _ => false
    fromPath := fun _ _ => .ok ()
    dirAdd := fun _ => none
    createDirAll := .ok ()
    build := .ok ()
    serialize := .ok []
    writeOut := .ok () }

/-- A sample regular-file payload entry at `opt/x`. -/
def tarFileX : TarEntry :=
  { path := "opt/x", etype := .file, mode := 0o644, linkTarget := none
    contents := [1, 2], size := 2 }

/-- A sample control member of the outer archive. -/
def controlMember : ArEntry :=
  { identifier := "control.tar.zst", mode := 420, contents := .bytes [9] }

/-- A sample payload member: a zstd-compressed archive holding
`tarFileX`. -/
def dataMember : ArEntry :=
  { identifier := "data.tar.zst", mode := 420
    contents := .compressed .zstd [tarFileX] }

/-- A build environment with no executable files whose packaging steps
all succeed, serializing to the two-member sample archive. -/
def envNoExec : BuildEnv :=
  { fs := fun _ => none
    isDir := fun _ => false
    fromPath := fun _ _ => .ok ()
    dirAdd := fun _ => none
    createDirAll := .ok ()
    build := .ok ()
    serialize := .ok [controlMember, dataMember]
    writeOut := .ok () }

end Ship

namespace Ship

/-! Helper lemmas. -/

theorem rewritePass_eq (es : List TarEntry) :
    rewritePass es = (es.map TarEntry.path, es.map reEmitEntry) := by
  induction es with
  | nil => rfl
  | cons e rest ih => simp [rewritePass, ih]

theorem contains_iff (l : List String) (a : String) :
    l.contains a = true ↔ a ∈ l := by
  simp [List.contains, List.elem_iff]

theorem lookupSeen_cons (k v key : String) (seen : List (String × String)) :
    lookupSeen ((k, v) :: seen) key =
      if key = k then some v else lookupSeen seen key := rfl

theorem lookupSeen_eq_none (seen : List (String × String)) (key : String) :
    lookupSeen seen key = none ↔ key ∉ seen.map Prod.fst := by
  induction seen with
  | nil => simp [lookupSeen]
  | cons p rest ih =>
      obtain ⟨k, v⟩ := p
      by_cases h : key = k <;> simp [lookupSeen, h, ih]

theorem lookupSeen_isSome_of_eq_some (seen : List (String × String))
    (key t : String) (h : lookupSeen seen key = some t) :
    key ∈ seen.map Prod.fst := by
  by_contra hn
  rw [← lookupSeen_eq_none] at hn
  rw [h] at hn
  exact Option.noConfusion hn

theorem execPairs_cons (fs : String → Option FileMeta) (src dst : String)
    (rest : List (String × String)) :
    execPairs fs ((src, dst) :: rest) =
      match executable_name fs src with
      | none => execPairs fs rest
      | some n => ("/usr/bin/" ++ n, dst) :: execPairs fs rest := by
  cases h : executable_name fs src <;> simp [execPairs, h]

/-- C3: for every archive member list, patching with an empty symlink
sequence is a pass-through — when the planner yields no symlinks and the
external packaging steps succeed, the members that reach the output file
are exactly the members the packaging library serialized, unmodified. -/
theorem c3_empty_symlinks_pass_through (env : BuildEnv) (progName : String)
    (paths : List String) (debBytes : List ArEntry)
    (hplan : planSymlinks env.fs (derivedFiles progName paths) [] [] = .ok [])
    (hadd : addFiles env (derivedFiles progName paths) = .ok ())
    (hdir : env.createDirAll = .ok ()) (hbuild : env.build = .ok ())
    (hser : env.serialize = .ok debBytes) (hwrite : env.writeOut = .ok ()) :
    run env progName paths = .wrote debBytes := by
  simp [run, hplan, hadd, hdir, hbuild, hser, hwrite, patchStep]

/-- C3 witness: a concrete build with no executable files writes out
exactly the serialized archive. -/
theorem c3_witness : run envNoExec "app" ["./readme"] =
    .wrote [controlMember, dataMember] :=
  c3_empty_symlinks_pass_through envNoExec "app" ["./readme"]
    [controlMember, dataMember] (by decide) (by decide) rfl rfl rfl rfl

/-- C10: the patcher's collision check consults only pre-existing payload
paths, not symlinks it has already appended — on a payload lacking
`usr/bin/x`, a symlink list naming `usr/bin/x` twice patches successfully
and the resulting payload holds the path `usr/bin/x` twice, violating
path-uniqueness. -/
theorem c10_duplicate_symlink_paths :
    rewrite_data_archive (.compressed .zstd [tarFileX]) "data.tar.zst"
        [("/usr/bin/x", "/opt/a/x"), ("/usr/bin/x", "/opt/b/x")]
      = .ok (.compressed .zstd
          [reEmitEntry tarFileX, symlinkTarEntry "usr/bin/x" "/opt/a/x",
            symlinkTarEntry "usr/bin/x" "/opt/b/x"])
    ∧ ([reEmitEntry tarFileX, symlinkTarEntry "usr/bin/x" "/opt/a/x",
          symlinkTarEntry "usr/bin/x" "/opt/b/x"].map TarEntry.path).count
        "usr/bin/x" = 2
    ∧ ¬ ([reEmitEntry tarFileX, symlinkTarEntry "usr/bin/x" "/opt/a/x",
          symlinkTarEntry "usr/bin/x" "/opt/b/x"].map TarEntry.path).Nodup := by
  refine ⟨by decide, by decide, by decide⟩

/-- C1 counterexample: on the spec's concrete scenario the planner does
yield exactly one symlink entry at `/usr/bin/app`, but its installed
target is `/opt/app/build/app` (the `/opt/<name>/<stripped source path>`
derivation of deb.rs:29-33), not the claimed `/opt/app/app`. -/
theorem c1_scenario_counterexample :
    planSymlinks fsScenario (derivedFiles "app" pathsScenario) [] []
      = .ok [("/usr/bin/app", "/opt/app/build/app")]
    ∧ ("/opt/app/build/app" : String) ≠ "/opt/app/app" := by
  refine ⟨by decide, by decide⟩

/-- C1 amended: on the scenario manifest the planner yields exactly one
symlink entry `/usr/bin/app ↦ /opt/app/build/app`, and patching any
payload that lacks the path `usr/bin/app` succeeds, yielding the original
entries (re-emitted) plus one zero-size symlink entry at `usr/bin/app`
whose link target is `/opt/app/build/app`. -/
theorem c1_scenario_amended (c : DataCompression) (dataName : String)
    (entries : List TarEntry)
    (hname : codecOfName dataName = some c)
    (hno : ((entries.map TarEntry.path).contains "usr/bin/app") = false) :
    planSymlinks fsScenario (derivedFiles "app" pathsScenario) [] []
      = .ok [("/usr/bin/app", "/opt/app/build/app")]
    ∧ rewrite_data_archive (.compressed c entries) dataName
        [("/usr/bin/app", "/opt/app/build/app")]
      = .ok (.compressed c (entries.map reEmitEntry
          ++ [symlinkTarEntry "usr/bin/app" "/opt/app/build/app"]))
    ∧ (symlinkTarEntry "usr/bin/app" "/opt/app/build/app").size = 0
    ∧ (symlinkTarEntry "usr/bin/app" "/opt/app/build/app").etype = .symlink
    ∧ (symlinkTarEntry "usr/bin/app" "/opt/app/build/app").linkTarget
        = some "/opt/app/build/app" := by
  refine ⟨by decide, ?_, by decide, by decide, by decide⟩
  have hstrip : stripLeadingSlash "/usr/bin/app" = "usr/bin/app" := by decide
  have hno' : ¬ ∃ a ∈ entries, a.path = "usr/bin/app" := by
    rintro ⟨a, ha, hp⟩
    have hm : ("usr/bin/app" : String) ∈ entries.map TarEntry.path :=
      List.mem_map.mpr ⟨a, ha, hp⟩
    rw [← contains_iff] at hm
    rw [hno] at hm
    exact Bool.noConfusion hm
  simp [rewrite_data_archive, hname, decompressBlob, rewritePass_eq,
    appendSymlinks, hstrip, hno']

theorem appendSymlinks_conflict (existing : List String) :
    ∀ links : List (String × String),
    (∃ pr ∈ links, stripLeadingSlash pr.1 ∈ existing) →
    ∃ p, appendSymlinks existing links = .error (.pathConflict p)
      ∧ p ∈ existing ∧ ∃ pr ∈ links, stripLeadingSlash pr.1 = p := by
  intro links
  induction links with
  | nil =>
      rintro ⟨pr, hpr, _⟩
      cases hpr
  | cons lt rest ih =>
      rintro ⟨pr, hpr, hmem⟩
      obtain ⟨link, target⟩ := lt
      by_cases hc : existing.contains (stripLeadingSlash link) = true
      · refine ⟨stripLeadingSlash link, ?_, (contains_iff _ _).mp hc,
          ⟨(link, target), by simp, rfl⟩⟩
        simp only [appendSymlinks]
        rw [if_pos hc]
      · have hpr' : pr ∈ rest := by
          rcases List.mem_cons.mp hpr with heq | h
          · exfalso
            apply hc
            rw [contains_iff]
            rw [heq] at hmem
            exact hmem
          · exact h
        obtain ⟨p, happ, hpe, pr', hpr'', hstrip⟩ := ih ⟨pr, hpr', hmem⟩
        refine ⟨p, ?_, hpe, ⟨pr', List.mem_cons_of_mem _ hpr'', hstrip⟩⟩
        simp only [appendSymlinks]
        rw [if_neg hc, happ]

theorem run_wrote_patchStep (env : BuildEnv) (progName : String)
    (paths : List String) (out : List ArEntry)
    (h : run env progName paths = .wrote out) :
    ∃ links debBytes,
      planSymlinks env.fs (derivedFiles progName paths) [] [] = .ok links
      ∧ env.serialize = .ok debBytes ∧ patchStep debBytes links = .ok out := by
  cases hp : planSymlinks env.fs (derivedFiles progName paths) [] [] with
  | error e =>
      obtain ⟨lp, t1, t2⟩ := e
      simp only [run, hp] at h
      exact RunOutcome.noConfusion h
  | ok links =>
      cases hA : addFiles env (derivedFiles progName paths) with
      | error e =>
          cases e <;> simp only [run, hp, hA] at h <;> exact RunOutcome.noConfusion h
      | ok u =>
          cases u
          cases hD : env.createDirAll with
          | error err =>
              simp only [run, hp, hA, hD] at h
              exact RunOutcome.noConfusion h
          | ok u =>
              cases u
              cases hB : env.build with
              | error err =>
                  simp only [run, hp, hA, hD, hB] at h
                  exact RunOutcome.noConfusion h
              | ok u =>
                  cases u
                  cases hS : env.serialize with
                  | error err =>
                      simp only [run, hp, hA, hD, hB, hS] at h
                      exact RunOutcome.noConfusion h
                  | ok debBytes =>
                      cases hP : patchStep debBytes links with
                      | error er =>
                          simp only [run, hp, hA, hD, hB, hS, hP] at h
                          exact RunOutcome.noConfusion h
                      | ok finalBytes =>
                          cases hW : env.writeOut with
                          | error err =>
                              simp only [run, hp, hA, hD, hB, hS, hP, hW] at h
                              exact RunOutcome.noConfusion h
                          | ok u =>
                              cases u
                              simp only [run, hp, hA, hD, hB, hS, hP, hW] at h
                              injection h with h'
                              exact ⟨links, debBytes, rfl, rfl, by rw [hP, h']⟩

/-- C5: a successful patch keeps every non-payload member byte-identical
(identifier, mode, contents) at its original position, and replaces the
payload member in place keeping its identifier and mode. -/
theorem c5_nonpayload_members_preserved (entries : List ArEntry)
    (links : List (String × String)) (out : List ArEntry)
    (h : rewrite_deb_with_symlinks entries links = .ok out) :
    out.length = entries.length ∧
    ∃ (i : Nat) (e : ArEntry), entries[i]? = some e ∧ is_data_entry e = true ∧
      (∀ j : Nat, j ≠ i → out[j]? = entries[j]?) ∧
      ∃ e' : ArEntry, out[i]? = some e' ∧ e'.identifier = e.identifier
        ∧ e'.mode = e.mode := by
  induction entries generalizing out with
  | nil => simp [rewrite_deb_with_symlinks] at h
  | cons e rest ih =>
      simp only [rewrite_deb_with_symlinks] at h
      by_cases hd : is_data_entry e = true
      · rw [if_pos hd] at h
        cases hr : rewrite_data_archive e.contents
            (ar_identifier_to_name e.identifier) links with
        | error err =>
            rw [hr] at h
            exact Except.noConfusion h
        | ok newData =>
            rw [hr] at h
            injection h with h'
            subst h'
            refine ⟨by simp, 0, e, by simp, hd, ?_,
              ⟨{ e with contents := newData }, by simp, rfl, rfl⟩⟩
            intro j hj
            cases j with
            | zero => exact absurd rfl hj
            | succ k => simp
      · rw [if_neg hd] at h
        cases hr : rewrite_deb_with_symlinks rest links with
        | error err =>
            rw [hr] at h
            exact Except.noConfusion h
        | ok rest' =>
            rw [hr] at h
            injection h with h'
            subst h'
            obtain ⟨hlen, i, e₀, hi, hdata, hframe, e', hi', hid, hmode⟩ :=
              ih rest' hr
            refine ⟨by simp [hlen], i + 1, e₀, ?_, hdata, ?_, ⟨e', ?_, hid, hmode⟩⟩
            · simpa using hi
            · intro j hj
              cases j with
              | zero => simp
              | succ k =>
                  have hk : k ≠ i := fun hk => hj (by rw [hk])
                  simpa using hframe k hk
            · simpa using hi'

/-- C5 witness: a concrete two-member archive patched successfully keeps
its member count. -/
theorem c5_witness :
    ([controlMember,
      { dataMember with
        contents := Blob.compressed DataCompression.zstd
          ([tarFileX].map reEmitEntry
            ++ [symlinkTarEntry "usr/bin/app" "/opt/app/build/app"]) }] :
        List ArEntry).length = [controlMember, dataMember].length :=
  (c5_nonpayload_members_preserved [controlMember, dataMember]
    [("/usr/bin/app", "/opt/app/build/app")] _ (by decide)).1

/-- C6: re-encoding a payload with no symlinks to add succeeds and yields
entries identical to the original in path, entry type, mode, contents,
and — for symlink and hard-link entries — link target, with the size
field recomputed from the unchanged contents. -/
theorem c6_payload_roundtrip (c : DataCompression) (dataName : String)
    (entries : List TarEntry) (hname : codecOfName dataName = some c) :
    rewrite_data_archive (.compressed c entries) dataName []
      = .ok (.compressed c (entries.map reEmitEntry))
    ∧ (entries.map reEmitEntry).length = entries.length
    ∧ ∀ (i : Nat) (e : TarEntry), entries[i]? = some e →
        ∃ e' : TarEntry, (entries.map reEmitEntry)[i]? = some e'
          ∧ e'.path = e.path ∧ e'.etype = e.etype ∧ e'.mode = e.mode
          ∧ e'.contents = e.contents ∧ e'.size = e.contents.length
          ∧ ((e.etype = .symlink ∨ e.etype = .hardLink) →
              e'.linkTarget = e.linkTarget) := by
  refine ⟨?_, by simp, ?_⟩
  · simp [rewrite_data_archive, hname, decompressBlob, rewritePass_eq,
      appendSymlinks]
  · intro i e hi
    refine ⟨reEmitEntry e, ?_, rfl, rfl, rfl, rfl, rfl, ?_⟩
    · rw [List.getElem?_map, hi]
      rfl
    · intro hl
      simp only [reEmitEntry]
      exact if_pos hl

/-- C6 witness: the round trip evaluated on a concrete one-entry zstd
payload. -/
theorem c6_witness :
    rewrite_data_archive (.compressed .zstd [tarFileX]) "data.tar.zst" []
      = .ok (.compressed .zstd ([tarFileX].map reEmitEntry)) :=
  (c6_payload_roundtrip .zstd "data.tar.zst" [tarFileX] (by decide)).1

/-- C7: when some symlink's link path, after stripping the leading `/`,
equals the path of an existing payload entry, the patch fails with a
path-conflict error naming a colliding payload path; and whenever the
patch step fails, `run` writes no archive. -/
theorem c7_collision_rejected (c : DataCompression) (dataName : String)
    (entries : List TarEntry) (links : List (String × String))
    (hname : codecOfName dataName = some c)
    (hconf : ∃ pr ∈ links, stripLeadingSlash pr.1 ∈ entries.map TarEntry.path) :
    (∃ p, rewrite_data_archive (.compressed c entries) dataName links
        = .error (.pathConflict p)
      ∧ p ∈ entries.map TarEntry.path
      ∧ ∃ pr ∈ links, stripLeadingSlash pr.1 = p)
    ∧ ∀ (env : BuildEnv) (progName : String) (paths : List String)
        (debBytes out : List ArEntry) (links' : List (String × String))
        (er : PatchError),
        planSymlinks env.fs (derivedFiles progName paths) [] [] = .ok links' →
        env.serialize = .ok debBytes →
        patchStep debBytes links' = .error er →
        run env progName paths ≠ .wrote out := by
  constructor
  · obtain ⟨p, happ, hpe, hpr⟩ :=
      appendSymlinks_conflict (entries.map TarEntry.path) links
        (by simpa [rewritePass_eq] using hconf)
    refine ⟨p, ?_, hpe, hpr⟩
    simp [rewrite_data_archive, hname, decompressBlob, rewritePass_eq, happ]
  · intro env progName paths debBytes out links' er hplan hser hpatch hwrote
    obtain ⟨links0, deb0, hp0, hs0, hps0⟩ :=
      run_wrote_patchStep env progName paths out hwrote
    rw [hplan] at hp0
    injection hp0 with hl0
    rw [hser] at hs0
    injection hs0 with hd0
    rw [← hl0, ← hd0, hpatch] at hps0
    exact Except.noConfusion hps0

/-- C7 witness: a symlink at `/opt/x` collides with the payload entry
`opt/x` and is rejected with a path-conflict error. -/
theorem c7_witness :
    ∃ p, rewrite_data_archive (.compressed .zstd [tarFileX]) "data.tar.zst"
        [("/opt/x", "/target")] = .error (.pathConflict p)
      ∧ p ∈ [tarFileX].map TarEntry.path
      ∧ ∃ pr ∈ [(("/opt/x" : String), ("/target" : String))],
          stripLeadingSlash pr.1 = p :=
  (c7_collision_rejected .zstd "data.tar.zst" [tarFileX] [("/opt/x", "/target")]
    (by decide) (by decide)).1

/-- C8: a successful patch re-compresses the payload with the same codec
it decoded it with, the codec selected by the member name's suffix; a
member name ending in neither `.zst` nor `.xz` is rejected with an
unsupported-format error naming that name. -/
theorem c8_codec_preserved :
    (∀ (dataName : String) (b : Blob) (links : List (String × String))
        (out : Blob),
        rewrite_data_archive b dataName links = .ok out →
        ∃ c entries entries', codecOfName dataName = some c
          ∧ b = .compressed c entries ∧ out = .compressed c entries')
    ∧ ∀ (dataName : String) (b : Blob) (links : List (String × String)),
        strEndsWith dataName ".zst" = false →
        strEndsWith dataName ".xz" = false →
        rewrite_data_archive b dataName links
          = .error (.unsupportedFormat dataName) := by
  constructor
  · intro dataName b links out h
    cases hc : codecOfName dataName with
    | none => simp [rewrite_data_archive, hc] at h
    | some c =>
        cases b with
        | bytes bs => simp [rewrite_data_archive, hc, decompressBlob] at h
        | compressed c' es =>
            by_cases hcc : c' = c
            · subst hcc
              have hde : decompressBlob c' (Blob.compressed c' es) = .ok es := by
                simp [decompressBlob]
              simp only [rewrite_data_archive, hc, hde] at h
              cases ha : appendSymlinks (rewritePass es).1 links with
              | error e =>
                  rw [ha] at h
                  exact Except.noConfusion h
              | ok les =>
                  rw [ha] at h
                  injection h with h'
                  exact ⟨c', es, (rewritePass es).2 ++ les, rfl, rfl, h'.symm⟩
            · simp [rewrite_data_archive, hc, decompressBlob, hcc] at h
  · intro dataName b links h1 h2
    simp [rewrite_data_archive, codecOfName, h1, h2]

/-- C8 witness: the zstd payload round trip keeps the zstd codec, and the
name `data.tar.gz` is rejected as unsupported. -/
theorem c8_witness :
    (∃ c entries entries', codecOfName "data.tar.zst" = some c
      ∧ (Blob.compressed .zstd [tarFileX] : Blob) = .compressed c entries
      ∧ (Blob.compressed .zstd ([tarFileX].map reEmitEntry) : Blob)
          = .compressed c entries')
    ∧ rewrite_data_archive (.bytes []) "data.tar.gz" []
        = .error (.unsupportedFormat "data.tar.gz") :=
  ⟨c8_codec_preserved.1 "data.tar.zst" (.compressed .zstd [tarFileX]) []
      (.compressed .zstd ([tarFileX].map reEmitEntry)) (by decide),
    c8_codec_preserved.2 "data.tar.gz" (.bytes []) [] (by decide) (by decide)⟩

theorem plan_ok_consistent (fs : String → Option FileMeta) :
    ∀ (files seen acc res : List (String × String)),
    planSymlinks fs files seen acc = .ok res →
    PairwiseConsistent (execPairs fs files)
      ∧ SeenConsistent (execPairs fs files) seen := by
  intro files
  induction files with
  | nil =>
      intro seen acc res _
      constructor
      · intro p hp
        simp [execPairs] at hp
      · intro p hp
        simp [execPairs] at hp
  | cons sd rest ih =>
      intro seen acc res h
      obtain ⟨src, dst⟩ := sd
      rw [execPairs_cons]
      simp only [planSymlinks] at h
      cases he : executable_name fs src with
      | none =>
          simp only [he] at h ⊢
          exact ih seen acc res h
      | some n =>
          simp only [he] at h ⊢
          cases hl : lookupSeen seen ("/usr/bin/" ++ n) with
          | some t0 =>
              simp only [hl] at h
              by_cases hne : t0 ≠ dst
              · rw [if_pos hne] at h
                exact Except.noConfusion h
              · rw [if_neg hne] at h
                push_neg at hne
                subst hne
                obtain ⟨pc, sc⟩ := ih seen acc res h
                constructor
                · rintro p hp q hq hpq
                  rcases List.mem_cons.mp hp with hp1 | hp2
                  · rcases List.mem_cons.mp hq with hq1 | hq2
                    · rw [hp1, hq1]
                    · rw [hp1]
                      rw [hp1] at hpq
                      exact (sc q hq2 t0 (by rw [← hpq]; exact hl)).symm
                  · rcases List.mem_cons.mp hq with hq1 | hq2
                    · rw [hq1]
                      rw [hq1] at hpq
                      exact sc p hp2 t0 (by rw [hpq]; exact hl)
                    · exact pc p hp2 q hq2 hpq
                · rintro p hp t ht
                  rcases List.mem_cons.mp hp with hp1 | hp2
                  · rw [hp1] at ht ⊢
                    rw [hl] at ht
                    exact Option.some.inj ht
                  · exact sc p hp2 t ht
          | none =>
              simp only [hl] at h
              obtain ⟨pc, sc⟩ := ih (("/usr/bin/" ++ n, dst) :: seen)
                (acc ++ [("/usr/bin/" ++ n, dst)]) res h
              constructor
              · rintro p hp q hq hpq
                rcases List.mem_cons.mp hp with hp1 | hp2
                · rcases List.mem_cons.mp hq with hq1 | hq2
                  · rw [hp1, hq1]
                  · rw [hp1]
                    rw [hp1] at hpq
                    refine (sc q hq2 dst ?_).symm
                    rw [lookupSeen_cons, if_pos hpq.symm]
                · rcases List.mem_cons.mp hq with hq1 | hq2
                  · rw [hq1]
                    rw [hq1] at hpq
                    refine sc p hp2 dst ?_
                    rw [lookupSeen_cons, if_pos hpq]
                  · exact pc p hp2 q hq2 hpq
              · rintro p hp t ht
                rcases List.mem_cons.mp hp with hp1 | hp2
                · rw [hp1] at ht
                  rw [hl] at ht
                  exact Option.noConfusion ht
                · refine sc p hp2 t ?_
                  rw [lookupSeen_cons]
                  by_cases hpk : p.1 = "/usr/bin/" ++ n
                  · rw [hpk] at ht
                    rw [hl] at ht
                    exact Option.noConfusion ht
                  · rw [if_neg hpk]
                    exact ht

theorem plan_error_conflict (fs : String → Option FileMeta) :
    ∀ (files seen acc : List (String × String)) (lp t1 t2 : String),
    planSymlinks fs files seen acc = .error (.conflict lp t1 t2) →
    t1 ≠ t2 ∧ (lp, t2) ∈ execPairs fs files
      ∧ (lookupSeen seen lp = some t1 ∨ (lp, t1) ∈ execPairs fs files) := by
  intro files
  induction files with
  | nil =>
      intro seen acc lp t1 t2 h
      simp [planSymlinks] at h
  | cons sd rest ih =>
      intro seen acc lp t1 t2 h
      obtain ⟨src, dst⟩ := sd
      rw [execPairs_cons]
      simp only [planSymlinks] at h
      cases he : executable_name fs src with
      | none =>
          simp only [he] at h ⊢
          exact ih seen acc lp t1 t2 h
      | some n =>
          simp only [he] at h ⊢
          cases hl : lookupSeen seen ("/usr/bin/" ++ n) with
          | some t0 =>
              simp only [hl] at h
              by_cases hne : t0 ≠ dst
              · rw [if_pos hne] at h
                injection h with h'
                injection h' with e1 e2 e3
                subst e1
                subst e2
                subst e3
                exact ⟨hne, List.mem_cons_self _ _, Or.inl hl⟩
              · rw [if_neg hne] at h
                push_neg at hne
                subst hne
                obtain ⟨h1, h2, h3⟩ := ih seen acc lp t1 t2 h
                exact ⟨h1, List.mem_cons_of_mem _ h2,
                  h3.imp id (List.mem_cons_of_mem _)⟩
          | none =>
              simp only [hl] at h
              obtain ⟨h1, h2, h3⟩ := ih _ _ lp t1 t2 h
              refine ⟨h1, List.mem_cons_of_mem _ h2, ?_⟩
              rcases h3 with h3 | h3
              · rw [lookupSeen_cons] at h3
                by_cases hpk : lp = "/usr/bin/" ++ n
                · rw [if_pos hpk] at h3
                  injection h3 with h3'
                  right
                  rw [hpk, ← h3']
                  exact List.mem_cons_self _ _
                · rw [if_neg hpk] at h3
                  exact Or.inl h3
              · exact Or.inr (List.mem_cons_of_mem _ h3)

theorem plan_ok_of_consistent (fs : String → Option FileMeta) :
    ∀ (files seen acc : List (String × String)),
    PairwiseConsistent (execPairs fs files) →
    SeenConsistent (execPairs fs files) seen →
    planSymlinks fs files seen acc =
      .ok (acc ++ firstSeenKeys (execPairs fs files) (seen.map Prod.fst)) := by
  intro files
  induction files with
  | nil =>
      intro seen acc _ _
      simp [planSymlinks, execPairs, firstSeenKeys]
  | cons sd rest ih =>
      intro seen acc pc sc
      obtain ⟨src, dst⟩ := sd
      rw [execPairs_cons] at pc sc ⊢
      simp only [planSymlinks]
      cases he : executable_name fs src with
      | none =>
          simp only [he] at pc sc ⊢
          exact ih seen acc pc sc
      | some n =>
          simp only [he] at pc sc ⊢
          cases hl : lookupSeen seen ("/usr/bin/" ++ n) with
          | some t0 =>
              have ht0 : dst = t0 :=
                sc ("/usr/bin/" ++ n, dst) (List.mem_cons_self _ _) t0 hl
              simp only [hl]
              rw [if_neg (by rw [← ht0]; exact fun hne => hne rfl)]
              have pc' : PairwiseConsistent (execPairs fs rest) := by
                intro p hp q hq
                exact pc p (List.mem_cons_of_mem _ hp) q (List.mem_cons_of_mem _ hq)
              have sc' : SeenConsistent (execPairs fs rest) seen := by
                intro p hp
                exact sc p (List.mem_cons_of_mem _ hp)
              rw [ih seen acc pc' sc']
              have hmem : ("/usr/bin/" ++ n) ∈ seen.map Prod.fst :=
                lookupSeen_isSome_of_eq_some seen _ t0 hl
              rw [firstSeenKeys, if_pos hmem]
          | none =>
              simp only [hl]
              have pc' : PairwiseConsistent (execPairs fs rest) := by
                intro p hp q hq
                exact pc p (List.mem_cons_of_mem _ hp) q (List.mem_cons_of_mem _ hq)
              have sc' : SeenConsistent (execPairs fs rest)
                  (("/usr/bin/" ++ n, dst) :: seen) := by
                intro p hp t ht
                rw [lookupSeen_cons] at ht
                by_cases hpk : p.1 = "/usr/bin/" ++ n
                · rw [if_pos hpk] at ht
                  injection ht with ht'
                  rw [← ht']
                  exact pc p (List.mem_cons_of_mem _ hp)
                    ("/usr/bin/" ++ n, dst) (List.mem_cons_self _ _) hpk
                · rw [if_neg hpk] at ht
                  exact sc p (List.mem_cons_of_mem _ hp) t ht
              rw [ih (("/usr/bin/" ++ n, dst) :: seen) (acc ++ [("/usr/bin/" ++ n, dst)])
                pc' sc']
              have hnmem : ("/usr/bin/" ++ n) ∉ seen.map Prod.fst :=
                (lookupSeen_eq_none seen _).mp hl
              rw [firstSeenKeys, if_neg hnmem]
              simp

theorem firstSeenKeys_nodup :
    ∀ (l : List (String × String)) (ks : List String),
    ((firstSeenKeys l ks).map Prod.fst).Nodup
      ∧ ∀ k ∈ (firstSeenKeys l ks).map Prod.fst, k ∉ ks := by
  intro l
  induction l with
  | nil =>
      intro ks
      simp [firstSeenKeys]
  | cons kv rest ih =>
      intro ks
      obtain ⟨k, v⟩ := kv
      by_cases hk : k ∈ ks
      · rw [firstSeenKeys, if_pos hk]
        exact ih ks
      · rw [firstSeenKeys, if_neg hk]
        obtain ⟨hnd, hout⟩ := ih (k :: ks)
        constructor
        · simp only [List.map_cons, List.nodup_cons]
          refine ⟨fun hmem => ?_, hnd⟩
          exact hout k hmem (List.mem_cons_self _ _)
        · intro k' hk' hks
          rcases List.mem_cons.mp hk' with h1 | h2
          · rw [h1] at hks
            exact hk hks
          · exact hout k' h2 (List.mem_cons_of_mem _ hks)

/-- C4: whenever the file-entry list derives the same link path with two
different installed targets — in either order — the planner fails with a
conflict error naming two genuinely conflicting targets for that link
path, and `run` returns with the conflict diagnostic before any archive
is built or written, whatever the outcome of the later build steps. -/
theorem c4_conflict_always_detected (fs : String → Option FileMeta)
    (files : List (String × String))
    (hconf : ∃ p ∈ execPairs fs files, ∃ q ∈ execPairs fs files,
        p.1 = q.1 ∧ p.2 ≠ q.2) :
    ∃ lp t1 t2,
      planSymlinks fs files [] [] = .error (.conflict lp t1 t2)
      ∧ t1 ≠ t2 ∧ (lp, t1) ∈ execPairs fs files
      ∧ (lp, t2) ∈ execPairs fs files
      ∧ ∀ (env : BuildEnv) (progName : String) (paths : List String),
          env.fs = fs → derivedFiles progName paths = files →
          run env progName paths = .returned (conflictMessage lp t1 t2) := by
  cases h : planSymlinks fs files [] [] with
  | ok res =>
      exfalso
      obtain ⟨p, hp, q, hq, hpq, hne⟩ := hconf
      exact hne ((plan_ok_consistent fs files [] [] res h).1 p hp q hq hpq)
  | error e =>
      obtain ⟨lp, t1, t2⟩ := e
      obtain ⟨h1, h2, h3⟩ := plan_error_conflict fs files [] [] lp t1 t2 h
      have h3' : (lp, t1) ∈ execPairs fs files := by
        rcases h3 with h3 | h3
        · exact absurd h3 (by simp [lookupSeen])
        · exact h3
      refine ⟨lp, t1, t2, rfl, h1, h3', h2, ?_⟩
      intro env progName paths hfs hfiles
      simp only [run, hfs, hfiles, h]

/-- C4 witness: two distinct executables named `app` conflict on
`/usr/bin/app` and the planner reports both targets. -/
theorem c4_witness :
    ∃ lp t1 t2,
      planSymlinks fsTwoApps (derivedFiles "p" ["./a/app", "./b/app"]) [] []
        = .error (.conflict lp t1 t2)
      ∧ t1 ≠ t2
      ∧ (lp, t1) ∈ execPairs fsTwoApps (derivedFiles "p" ["./a/app", "./b/app"])
      ∧ (lp, t2) ∈ execPairs fsTwoApps (derivedFiles "p" ["./a/app", "./b/app"])
      ∧ ∀ (env : BuildEnv) (progName : String) (paths : List String),
          env.fs = fsTwoApps →
          derivedFiles progName paths = derivedFiles "p" ["./a/app", "./b/app"] →
          run env progName paths = .returned (conflictMessage lp t1 t2) :=
  c4_conflict_always_detected fsTwoApps (derivedFiles "p" ["./a/app", "./b/app"])
    (by decide)

/-- C9: when every two derived pairs with the same link path agree on the
target (in particular when one executable source is listed twice with the
same installed target), the planner succeeds with no conflict, keeps
exactly one entry per link path, and its output is the first-occurrence
deduplication of the derived pairs, preserving first-seen order. -/
theorem c9_idempotent_duplicates (fs : String → Option FileMeta)
    (files : List (String × String))
    (hcons : ∀ p ∈ execPairs fs files, ∀ q ∈ execPairs fs files,
        p.1 = q.1 → p.2 = q.2) :
    planSymlinks fs files [] [] = .ok (firstSeen (execPairs fs files))
    ∧ ((firstSeen (execPairs fs files)).map Prod.fst).Nodup := by
  have hsc : SeenConsistent (execPairs fs files) [] := by
    intro p hp t ht
    simp [lookupSeen] at ht
  constructor
  · have h := plan_ok_of_consistent fs files [] [] hcons hsc
    simpa [firstSeen] using h
  · exact (firstSeenKeys_nodup (execPairs fs files) []).1

/-- C9 witness: the scenario manifest listing `./build/app` twice with
the same target plans to the single-entry deduplicated output. -/
theorem c9_witness :
    planSymlinks fsScenario (derivedFiles "app" pathsScenario) [] []
      = .ok (firstSeen (execPairs fsScenario (derivedFiles "app" pathsScenario)))
    ∧ ((firstSeen (execPairs fsScenario
        (derivedFiles "app" pathsScenario))).map Prod.fst).Nodup :=
  c9_idempotent_duplicates fsScenario (derivedFiles "app" pathsScenario)
    (by decide)

/-- C2 counterexample: with two conflicting executables the generator
prints the conflict diagnostic and returns from `run`; the process is not
terminated with a non-zero exit status, contradicting the claim that
every error in this subsystem ends in non-zero process termination. -/
theorem c2_counterexample :
    run envTwoApps "p" ["./a/app", "./b/app"]
      = .returned (conflictMessage "/usr/bin/app" "/opt/p/a/app" "/opt/p/b/app")
    ∧ (run envTwoApps "p" ["./a/app", "./b/app"]).isExitFailure = false := by
  refine ⟨by decide, by decide⟩

/-- C2 amended: on a planner conflict the build emits a diagnostic naming
the link path and both conflicting targets and writes no archive file,
but `run` returns normally — it does not terminate the process with a
non-zero status (later pipeline failures do exit the process). -/
theorem c2_conflict_returns (env : BuildEnv) (progName : String)
    (paths : List String) (lp t1 t2 : String)
    (hplan : planSymlinks env.fs (derivedFiles progName paths) [] []
      = .error (.conflict lp t1 t2)) :
    run env progName paths = .returned (conflictMessage lp t1 t2)
    ∧ (run env progName paths).isWrote = false
    ∧ (run env progName paths).isExitFailure = false := by
  have h : run env progName paths = .returned (conflictMessage lp t1 t2) := by
    simp only [run, hplan]
  refine ⟨h, ?_, ?_⟩ <;> rw [h] <;> rfl

/-- C2 amended witness: the two-executable conflict evaluated
concretely. -/
theorem c2_witness :
    run envTwoApps "p" ["./a/app", "./b/app"]
      = .returned (conflictMessage "/usr/bin/app" "/opt/p/a/app" "/opt/p/b/app")
    ∧ (run envTwoApps "p" ["./a/app", "./b/app"]).isWrote = false
    ∧ (run envTwoApps "p" ["./a/app", "./b/app"]).isExitFailure = false :=
  c2_conflict_returns envTwoApps "p" ["./a/app", "./b/app"] "/usr/bin/app"
    "/opt/p/a/app" "/opt/p/b/app" (by decide)

/-- C1 amended witness: the amended scenario evaluated on a concrete
one-file zstd payload. -/
theorem c1_scenario_witness :
    planSymlinks fsScenario (derivedFiles "app" pathsScenario) [] []
      = .ok [("/usr/bin/app", "/opt/app/build/app")]
    ∧ rewrite_data_archive (.compressed .zstd [tarFileX]) "data.tar.zst"
        [("/usr/bin/app", "/opt/app/build/app")]
      = .ok (.compressed .zstd ([tarFileX].map reEmitEntry
          ++ [symlinkTarEntry "usr/bin/app" "/opt/app/build/app"]))
    ∧ (symlinkTarEntry "usr/bin/app" "/opt/app/build/app").size = 0
    ∧ (symlinkTarEntry "usr/bin/app" "/opt/app/build/app").etype = .symlink
    ∧ (symlinkTarEntry "usr/bin/app" "/opt/app/build/app").linkTarget
        = some "/opt/app/build/app" :=
  c1_scenario_amended .zstd "data.tar.zst" [tarFileX] (by decide) (by decide)

end Ship
